import Mathlib

/-!
Verification of the vectori raster-to-vector pipeline (src/unnamed/part_000,
with the variant in src/publish.js where a claim cites it).

Shallow embedding conventions:
* A JS `[R, G, B]` color array is the structure `Color` with `Nat` channels
  (Jimp bitmap bytes are 0–255 integers).
* `computeEuclideanDistance` in the source is `Math.sqrt` of the sum of squared
  channel differences and is only ever used in strict `<` comparisons.  For the
  integer inputs that occur (sums of squares up to 3·255²), IEEE-754 `sqrt` is
  exact enough to be strictly monotone (adjacent integer radicands differ in
  square root by far more than one ulp), so comparing squared distances is an
  exact model; `distSq` is that squared distance.
* A Jimp bitmap is `Bitmap`: width, height, and the RGBA byte list `data`
  (4 bytes per pixel, index `(width*y+x)*4`).  Every pixel-rewriting pass in
  the source calls `image.scan(0, 0, w, h, cb)` with a callback that reads
  `data[idx..idx+2]` of its own pixel and writes only those three bytes; such a
  pass is embedded as `scanRGB f`, which rewrites each 4-byte group by `f` on
  its RGB part and copies the fourth (alpha) byte unchanged.
* JS mutation is made explicit by value flow: `processImage` mutates its
  argument in place and returns it, so in the embedding the *same value*
  `processImage img pal` stands both for the return value and for what the
  variable `image` holds afterwards.
-/

/-- An `[R, G, B]` color array (Jimp channel bytes). -/
structure Color where
  r : Nat
  g : Nat
  b : Nat
deriving DecidableEq, Repr

/-- Squared Euclidean RGB distance: the radicand of `computeEuclideanDistance`
(src/unnamed/part_000 lines 20–21, `a.reduce((acc, val, i) => acc + Math.pow(val - b[i], 2), 0)`).
The source compares `sqrt` values with strict `<` only; `sqrt` is strictly
monotone on the occurring integer radicands, so the comparison is modelled
exactly by comparing `distSq` values. -/
def distSq (a b : Color) : Int :=
  ((a.r : Int) - b.r) ^ 2 + ((a.g : Int) - b.g) ^ 2 + ((a.b : Int) - b.b) ^ 2

/-- `findClosestColor` of src/unnamed/part_000 lines 31–41: empty (or missing)
palette returns the color unchanged; otherwise
`palette.reduce((prev, curr) => d(curr, color) < d(prev, color) ? curr : prev)`,
i.e. a left fold starting from the first entry that replaces the accumulator
only on strictly smaller distance. -/
def findClosestColor (color : Color) (palette : List Color) : Color :=
  match palette with
  | [] => color
  | x :: xs =>
      xs.foldl (fun prev curr => if distSq curr color < distSq prev color then curr else prev) x

/-- `findClosestColor` of src/publish.js lines 43–49: the same reduce but with
no empty-palette guard.  JS `Array.prototype.reduce` on an empty array with no
initial value throws a `TypeError`, modelled as `none`. -/
def publishFindClosestColor (color : Color) (palette : List Color) : Option Color :=
  match palette with
  | [] => none
  | x :: xs =>
      some (xs.foldl (fun prev curr => if distSq curr color < distSq prev color then curr else prev) x)

namespace FindClosest

variable (c : Color)

/-- One step of the source's reduce callback. -/
def step (c : Color) (prev curr : Color) : Color :=
  if distSq curr c < distSq prev c then curr else prev

theorem foldl_mem : ∀ (xs : List Color) (x : Color),
    xs.foldl (step c) x = x ∨ xs.foldl (step c) x ∈ xs := by
  intro xs
  induction xs with
  | nil => intro x; exact Or.inl rfl
  | cons y ys ih =>
      intro x
      rw [List.foldl_cons]
      rcases ih (step c x y) with h | h
      · rw [h]
        unfold step
        split
        · exact Or.inr (List.mem_cons_self _ _)
        · exact Or.inl rfl
      · exact Or.inr (List.mem_cons_of_mem _ h)

theorem foldl_min : ∀ (xs : List Color) (x : Color),
    distSq (xs.foldl (step c) x) c ≤ distSq x c ∧
    ∀ q ∈ xs, distSq (xs.foldl (step c) x) c ≤ distSq q c := by
  intro xs
  induction xs with
  | nil => intro x; exact ⟨le_refl _, by intro q hq; cases hq⟩
  | cons y ys ih =>
      intro x
      have hstep : distSq (step c x y) c ≤ distSq x c ∧ distSq (step c x y) c ≤ distSq y c := by
        unfold step
        split
        · exact ⟨le_of_lt (by assumption), le_refl _⟩
        · exact ⟨le_refl _, le_of_not_lt (by assumption)⟩
      obtain ⟨ih1, ih2⟩ := ih (step c x y)
      refine ⟨le_trans ih1 hstep.1, ?_⟩
      intro q hq
      rcases List.mem_cons.mp hq with rfl | hq
      · exact le_trans ih1 hstep.2
      · exact ih2 q hq

/-- The fold returns the *first* entry attaining the minimum distance:
`find?` with the predicate "at most the winner's distance" finds the winner. -/
theorem foldl_first_min : ∀ (xs : List Color) (x : Color),
    (x :: xs).find? (fun q => distSq q c ≤ distSq (xs.foldl (step c) x) c) =
      some (xs.foldl (step c) x) := by
  intro xs
  induction xs with
  | nil =>
      intro x
      simp [List.find?]
  | cons y ys ih =>
      intro x
      show (x :: y :: ys).find? (fun q => distSq q c ≤ distSq (ys.foldl (step c) (step c x y)) c)
        = some (ys.foldl (step c) (step c x y))
      set r := ys.foldl (step c) (step c x y) with hr
      by_cases hxy : distSq y c < distSq x c
      · -- the accumulator advances to `y`; `x` is strictly worse than the winner
        have hy : step c x y = y := by unfold step; rw [if_pos hxy]
        have hmin := (foldl_min c ys (step c x y)).1
        rw [hy] at hmin
        have hx : ¬ distSq x c ≤ distSq r c := by
          rw [hr, hy]
          exact not_le_of_lt (lt_of_le_of_lt hmin hxy)
        have hfind := ih (step c x y)
        rw [hy] at hfind
        rw [List.find?_cons_of_neg _ (by simpa using hx)]
        rw [hr, hy]
        exact hfind
      · have hxs : step c x y = x := by unfold step; rw [if_neg hxy]
        have hfind := ih (step c x y)
        rw [hxs] at hfind
        rw [hr, hxs]
        by_cases hx : distSq x c ≤ distSq (ys.foldl (step c) x) c
        · -- `x` itself passes the predicate, and it is then the fold's result
          have : (x :: ys).find? (fun q => distSq q c ≤ distSq (ys.foldl (step c) x) c)
              = some x := by
            rw [List.find?_cons_of_pos _ (by simpa using hx)]
          rw [this] at hfind
          have hxr : x = ys.foldl (step c) x := by
            injection hfind
          rw [List.find?_cons_of_pos _ (by simpa using hx)]
          rw [← hxr]
        · -- `x` fails, and so does `y` (it is no better than `x`)
          have hyfail : ¬ distSq y c ≤ distSq (ys.foldl (step c) x) c := by
            intro hle
            exact hx (le_trans (le_of_not_lt hxy) hle)
          rw [List.find?_cons_of_neg _ (by simpa using hx)] at hfind
          rw [List.find?_cons_of_neg _ (by simpa using hx),
            List.find?_cons_of_neg _ (by simpa using hyfail)]
          exact hfind

end FindClosest

/-- C4: for a non-empty palette, `findClosestColor` returns a palette member,
no other member is strictly closer (Euclidean RGB distance), and ties go to the
entry occurring first in the palette: the first entry whose distance is at most
the winner's distance *is* the winner. -/
theorem findClosestColor_spec (c : Color) (p : List Color) (hp : p ≠ []) :
    findClosestColor c p ∈ p ∧
    (∀ q ∈ p, ¬ distSq q c < distSq (findClosestColor c p) c) ∧
    p.find? (fun q => distSq q c ≤ distSq (findClosestColor c p) c) =
      some (findClosestColor c p) := by
  match p with
  | [] => exact absurd rfl hp
  | x :: xs =>
      have hdef : findClosestColor c (x :: xs) = xs.foldl (FindClosest.step c) x := by
        unfold findClosestColor FindClosest.step
        rfl
      refine ⟨?_, ?_, ?_⟩
      · rw [hdef]
        rcases FindClosest.foldl_mem c xs x with h | h
        · rw [h]; exact List.mem_cons_self _ _
        · exact List.mem_cons_of_mem _ h
      · intro q hq
        rw [hdef]
        rcases List.mem_cons.mp hq with rfl | hq
        · exact not_lt_of_le (FindClosest.foldl_min c xs q).1
        · exact not_lt_of_le ((FindClosest.foldl_min c xs x).2 q hq)
      · rw [hdef]
        exact FindClosest.foldl_first_min c xs x

/-- Witness for `findClosestColor_spec` at a concrete palette with a tie:
both palette entries are at squared distance 1 from the color, and the first
one is returned. -/
theorem findClosestColor_spec_witness :
    ([⟨10, 0, 0⟩, ⟨12, 0, 0⟩] : List Color) ≠ [] ∧
    findClosestColor ⟨11, 0, 0⟩ [⟨10, 0, 0⟩, ⟨12, 0, 0⟩] ∈
      ([⟨10, 0, 0⟩, ⟨12, 0, 0⟩] : List Color) ∧
    findClosestColor ⟨11, 0, 0⟩ [⟨10, 0, 0⟩, ⟨12, 0, 0⟩] = ⟨10, 0, 0⟩ := by
  refine ⟨by decide, (findClosestColor_spec ⟨11, 0, 0⟩ [⟨10, 0, 0⟩, ⟨12, 0, 0⟩] (by decide)).1,
    by decide⟩

/-- C5 counterexample: the `findClosestColor` cited in src/publish.js lines
43–49 has no empty-palette guard; on an empty palette the underlying `reduce`
throws instead of returning the color, so classification is a failure there,
not the identity. -/
theorem publishFindClosest_empty_cex :
    publishFindClosestColor ⟨0, 0, 0⟩ [] ≠ some ⟨0, 0, 0⟩ ∧
    publishFindClosestColor ⟨0, 0, 0⟩ [] = none := by
  constructor <;> decide

/-- C5 (amended): the main module's `findClosestColor`
(src/unnamed/part_000 lines 31–41) returns the color unchanged on an empty
palette; the src/publish.js variant agrees with it on every non-empty palette
but fails (throws) on the empty one instead of falling back to the color. -/
theorem findClosestColor_empty_fallback :
    (∀ c : Color, findClosestColor c [] = c) ∧
    (∀ (c : Color) (p : List Color), p ≠ [] →
      publishFindClosestColor c p = some (findClosestColor c p)) ∧
    (∀ c : Color, publishFindClosestColor c [] = none) := by
  refine ⟨fun c => rfl, ?_, fun c => rfl⟩
  intro c p hp
  match p with
  | [] => exact absurd rfl hp
  | x :: xs => rfl

/-- Witness for `findClosestColor_empty_fallback` at a concrete non-empty
palette. -/
theorem findClosestColor_empty_fallback_witness :
    ([⟨9, 9, 9⟩] : List Color) ≠ [] ∧
    publishFindClosestColor ⟨1, 2, 3⟩ [⟨9, 9, 9⟩] =
      some (findClosestColor ⟨1, 2, 3⟩ [⟨9, 9, 9⟩]) ∧
    findClosestColor ⟨5, 5, 5⟩ [] = ⟨5, 5, 5⟩ :=
  ⟨by decide, findClosestColor_empty_fallback.2.1 ⟨1, 2, 3⟩ [⟨9, 9, 9⟩] (by decide),
    findClosestColor_empty_fallback.1 ⟨5, 5, 5⟩⟩

/-- One RGBA pixel (4 consecutive bytes of a Jimp bitmap's `data`). -/
structure RGBA where
  r : Nat
  g : Nat
  b : Nat
  a : Nat
deriving DecidableEq, Repr

/-- A Jimp bitmap: `data` is the flat byte list, 4 bytes (R, G, B, A) per
pixel, pixel `(x, y)` at byte index `(width * y + x) * 4`. -/
structure Bitmap where
  width : Nat
  height : Nat
  data : List Nat
deriving DecidableEq, Repr

/-- `image.scan(0, 0, w, h, cb)` for a callback that reads its own pixel's
`data[idx]`, `data[idx+1]`, `data[idx+2]` and writes only those three bytes:
each 4-byte group has its RGB part rewritten by `f`, the fourth (alpha) byte is
copied unchanged.  All three pixel passes of the source (`processImage`,
`separateColors`, `separateGreyscaleColors`) have this shape. -/
def scanRGB (f : Nat → Nat → Nat → Nat × Nat × Nat) : List Nat → List Nat
  | red :: green :: blue :: alpha :: rest =>
      (f red green blue).1 :: (f red green blue).2.1 :: (f red green blue).2.2 ::
        alpha :: scanRGB f rest
  | l => l

/-- The `j`-th pixel of a flat RGBA byte list (bytes `4*j .. 4*j+3`),
or `none` past the end. -/
def getRGBA : List Nat → Nat → Option RGBA
  | red :: green :: blue :: alpha :: _, 0 => some ⟨red, green, blue, alpha⟩
  | _ :: _ :: _ :: _ :: rest, j + 1 => getRGBA rest j
  | _, _ => none

/-- A `scanRGB` pass rewrites pixel `j`'s RGB by `f` and keeps its alpha. -/
theorem getRGBA_scanRGB (f : Nat → Nat → Nat → Nat × Nat × Nat) :
    ∀ (d : List Nat) (j : Nat),
      getRGBA (scanRGB f d) j =
        (getRGBA d j).map (fun p =>
          ⟨(f p.r p.g p.b).1, (f p.r p.g p.b).2.1, (f p.r p.g p.b).2.2, p.a⟩)
  | red :: green :: blue :: alpha :: rest, 0 => by
      simp [scanRGB, getRGBA]
  | red :: green :: blue :: alpha :: rest, j + 1 => by
      simpa [scanRGB, getRGBA] using getRGBA_scanRGB f rest j
  | [], j => by simp [scanRGB, getRGBA]
  | [x], j => by cases j <;> simp [scanRGB, getRGBA]
  | [x, y], j => by cases j <;> simp [scanRGB, getRGBA]
  | [x, y, z], j => by cases j <;> simp [scanRGB, getRGBA]

/-- `processImage` (src/unnamed/part_000 lines 49–66): maps each pixel's RGB to
`findClosestColor([red, green, blue], colorPalette)`, writing the three result
channels back; mutates the image in place and returns that same image. -/
def processImage (image : Bitmap) (colorPalette : List Color) : Bitmap :=
  { image with
    data := scanRGB (fun red green blue =>
      let closestColor := findClosestColor ⟨red, green, blue⟩ colorPalette
      (closestColor.r, closestColor.g, closestColor.b)) image.data }

/-- `separateColors` (src/unnamed/part_000 lines 131–158): for each palette
color, clone the image and set every pixel whose RGB differs from the color in
any channel (`red !== color[0] || green !== color[1] || blue !== color[2]`) to
white, leaving exactly-matching pixels untouched. -/
def separateColors (image : Bitmap) (colorPalette : List Color) : List Bitmap :=
  colorPalette.map (fun color =>
    { image with
      data := scanRGB (fun red green blue =>
        if red ≠ color.r ∨ green ≠ color.g ∨ blue ≠ color.b then (255, 255, 255)
        else (red, green, blue)) image.data })

/-- `TOLERANCE` (src/unnamed/part_000 line 160). -/
def TOLERANCE : Nat := 5

/-- The pixel/target luma `Math.round(0.3 * red + 0.59 * green + 0.11 * blue)`
(src/unnamed/part_000 lines 117, 171, 196), computed exactly on 0–255 integer
channels with round-half-up (`Math.round(x) = floor(x + 0.5)`); the float
products are assumed to realize the exact decimal arithmetic. -/
def luma (red green blue : Nat) : Nat :=
  (30 * red + 59 * green + 11 * blue + 50) / 100

/-- `separateGreyscaleColors` (src/unnamed/part_000 lines 181–216): for each
greyscale palette entry (a parsed `#rrggbb` hex, whose `greyHexToNumber` value
is the `luma` of its channels), clone the image; pixels whose luma is within
`TOLERANCE` of the target are forced to the exact grey `(target, target,
target)`, all others are turned white. -/
def separateGreyscaleColors (image : Bitmap) (greyscalePalette : List Color) : List Bitmap :=
  greyscalePalette.map (fun greyHex =>
    let targetGrey := luma greyHex.r greyHex.g greyHex.b
    { image with
      data := scanRGB (fun red green blue =>
        let grey := luma red green blue
        if ((grey : Int) - targetGrey).natAbs ≤ TOLERANCE then
          (targetGrey, targetGrey, targetGrey)
        else (255, 255, 255)) image.data })

/-- C8: `separateColors` produces one layer per palette entry, index-aligned,
each of the source's dimensions; in layer `i`, a pixel whose RGB is not exactly
integer-equal to palette entry `i` becomes white `(255, 255, 255)` (alpha
kept), and an exactly-matching pixel is left unchanged. -/
theorem separateColors_spec (bmp : Bitmap) (pal : List Color) :
    (separateColors bmp pal).length = pal.length ∧
    ∀ i L ci, (separateColors bmp pal).get? i = some L → pal.get? i = some ci →
      L.width = bmp.width ∧ L.height = bmp.height ∧
      ∀ j p, getRGBA bmp.data j = some p →
        (¬ (p.r = ci.r ∧ p.g = ci.g ∧ p.b = ci.b) →
          getRGBA L.data j = some ⟨255, 255, 255, p.a⟩) ∧
        ((p.r = ci.r ∧ p.g = ci.g ∧ p.b = ci.b) → getRGBA L.data j = some p) := by
  constructor
  · simp [separateColors]
  · intro i L ci hL hci
    rw [separateColors, List.get?_map, hci] at hL
    simp only [Option.map_some', Option.some.injEq] at hL
    subst hL
    refine ⟨rfl, rfl, ?_⟩
    intro j p hp
    rw [getRGBA_scanRGB, hp]
    simp only [Option.map_some']
    constructor
    · intro hne
      have hcond : p.r ≠ ci.r ∨ p.g ≠ ci.g ∨ p.b ≠ ci.b := by
        by_contra hcon
        push_neg at hcon
        exact hne ⟨hcon.1, hcon.2.1, hcon.2.2⟩
      rw [if_pos hcond]
    · intro heq
      have hcond : ¬ (p.r ≠ ci.r ∨ p.g ≠ ci.g ∨ p.b ≠ ci.b) := by
        push_neg
        exact ⟨heq.1, heq.2.1, heq.2.2⟩
      rw [if_neg hcond]

/-- Witness for `separateColors_spec`: a 2×1 bitmap and one-color palette; the
matching pixel keeps its bytes, the other becomes white with alpha kept. -/
theorem separateColors_spec_witness :
    (separateColors ⟨2, 1, [1, 2, 3, 9, 7, 7, 7, 8]⟩ [⟨1, 2, 3⟩]).length = 1 ∧
    getRGBA ((separateColors ⟨2, 1, [1, 2, 3, 9, 7, 7, 7, 8]⟩ [⟨1, 2, 3⟩]).headD
      ⟨0, 0, []⟩).data 0 = some ⟨1, 2, 3, 9⟩ ∧
    getRGBA ((separateColors ⟨2, 1, [1, 2, 3, 9, 7, 7, 7, 8]⟩ [⟨1, 2, 3⟩]).headD
      ⟨0, 0, []⟩).data 1 = some ⟨255, 255, 255, 8⟩ := by
  have h := separateColors_spec ⟨2, 1, [1, 2, 3, 9, 7, 7, 7, 8]⟩ [⟨1, 2, 3⟩]
  have h0 := h.2 0 ((separateColors ⟨2, 1, [1, 2, 3, 9, 7, 7, 7, 8]⟩ [⟨1, 2, 3⟩]).headD
    ⟨0, 0, []⟩) ⟨1, 2, 3⟩ rfl rfl
  exact ⟨h.1, (h0.2.2 0 ⟨1, 2, 3, 9⟩ (by decide)).2 (by decide),
    (h0.2.2 1 ⟨7, 7, 7, 8⟩ (by decide)).1 (by decide)⟩

/-- Any `scanRGB` pass preserves every pixel's alpha byte. -/
theorem scanRGB_alpha (f : Nat → Nat → Nat → Nat × Nat × Nat) (d : List Nat) (j : Nat) :
    (getRGBA (scanRGB f d) j).map RGBA.a = (getRGBA d j).map RGBA.a := by
  rw [getRGBA_scanRGB]
  cases getRGBA d j <;> rfl

/-- C10: the three pixel-rewriting passes (`processImage`, `separateColors`,
`separateGreyscaleColors`) write only the R, G, B bytes: every produced bitmap
and mask has, pixel for pixel, the alpha byte of the source bitmap. -/
theorem rgb_passes_preserve_alpha :
    (∀ (bmp : Bitmap) (pal : List Color) (j : Nat),
      (getRGBA (processImage bmp pal).data j).map RGBA.a = (getRGBA bmp.data j).map RGBA.a) ∧
    (∀ (bmp : Bitmap) (pal : List Color), ∀ L ∈ separateColors bmp pal, ∀ j : Nat,
      (getRGBA L.data j).map RGBA.a = (getRGBA bmp.data j).map RGBA.a) ∧
    (∀ (bmp : Bitmap) (targets : List Color), ∀ L ∈ separateGreyscaleColors bmp targets,
      ∀ j : Nat,
      (getRGBA L.data j).map RGBA.a = (getRGBA bmp.data j).map RGBA.a) := by
  refine ⟨fun bmp pal j => scanRGB_alpha _ _ _, ?_, ?_⟩
  · intro bmp pal L hL j
    obtain ⟨ci, _, rfl⟩ := List.mem_map.mp hL
    exact scanRGB_alpha _ _ _
  · intro bmp targets L hL j
    obtain ⟨tc, _, rfl⟩ := List.mem_map.mp hL
    exact scanRGB_alpha _ _ _

/-- Witness for `rgb_passes_preserve_alpha` on a concrete bitmap and layer. -/
theorem rgb_passes_preserve_alpha_witness :
    (getRGBA (processImage ⟨1, 1, [0, 0, 0, 77]⟩ [⟨255, 255, 255⟩]).data 0).map RGBA.a =
      (getRGBA ([0, 0, 0, 77] : List Nat) 0).map RGBA.a ∧
    (getRGBA ((separateColors ⟨1, 1, [0, 0, 0, 77]⟩ [⟨255, 255, 255⟩]).headD
        ⟨0, 0, []⟩).data 0).map RGBA.a =
      (getRGBA ([0, 0, 0, 77] : List Nat) 0).map RGBA.a :=
  ⟨rgb_passes_preserve_alpha.1 ⟨1, 1, [0, 0, 0, 77]⟩ [⟨255, 255, 255⟩] 0,
    rgb_passes_preserve_alpha.2.1 ⟨1, 1, [0, 0, 0, 77]⟩ [⟨255, 255, 255⟩]
      ((separateColors ⟨1, 1, [0, 0, 0, 77]⟩ [⟨255, 255, 255⟩]).headD ⟨0, 0, []⟩)
      (by decide) 0⟩

/-- The bitmaps each downstream stage of `vectori` receives. -/
structure VectoriFlow where
  quantizedImage : Bitmap
  greyscaleSource : Bitmap
  separationSource : Bitmap
deriving DecidableEq

/-- The image dataflow of `vectori` (src/unnamed/part_000 lines 452–468):
`processImage(image, colorPaletteValues)` at line 452 mutates `image` in place
(no `.clone()`), so the same quantized value is what line 457's
`createGreyscaleImage(image)` and lines 464–468's `separateColors(image, …)` /
`separateGreyscaleColors(image, …)` receive. -/
def vectoriImageFlow (image : Bitmap) (colorPaletteValues : List Color) : VectoriFlow :=
  let processedImage := processImage image colorPaletteValues
  { quantizedImage := processedImage
    greyscaleSource := processedImage
    separationSource := processedImage }

/-- The image dataflow of the second pipeline variant in the same file
(src/unnamed/part_000 line 893): `processImage(image.clone(), …)` quantizes a
clone, so the original `image` is what the greyscale conversion and the
separations receive. -/
def vectoriCloneImageFlow (image : Bitmap) (colorPaletteValues : List Color) : VectoriFlow :=
  { quantizedImage := processImage image colorPaletteValues
    greyscaleSource := image
    separationSource := image }

/-- C3 counterexample: in the cited `vectori` (src/unnamed/part_000 lines
452–468) the source bitmap is *not* preserved — a black 1×1 image quantized
against a white palette reaches the greyscale conversion and the separations
already quantized, not pixel-for-pixel unchanged. -/
theorem processImage_no_clone_cex :
    (vectoriImageFlow ⟨1, 1, [0, 0, 0, 255]⟩ [⟨255, 255, 255⟩]).greyscaleSource ≠
      ⟨1, 1, [0, 0, 0, 255]⟩ ∧
    (vectoriImageFlow ⟨1, 1, [0, 0, 0, 255]⟩ [⟨255, 255, 255⟩]).separationSource ≠
      ⟨1, 1, [0, 0, 0, 255]⟩ := by
  constructor <;> decide

/-- C3 (amended): in the cited pipeline, the greyscale conversion and the
separations receive the in-place-quantized image — every pixel already mapped
to its nearest palette color (alpha kept) — not the unmodified source; the
repository's second pipeline variant clones first and hands the unmodified
source downstream. -/
theorem vectoriImageFlow_spec (image : Bitmap) (pal : List Color) :
    (∀ j : Nat,
      getRGBA (vectoriImageFlow image pal).greyscaleSource.data j =
        (getRGBA image.data j).map (fun p =>
          let cc := findClosestColor ⟨p.r, p.g, p.b⟩ pal
          ⟨cc.r, cc.g, cc.b, p.a⟩) ∧
      getRGBA (vectoriImageFlow image pal).separationSource.data j =
        (getRGBA image.data j).map (fun p =>
          let cc := findClosestColor ⟨p.r, p.g, p.b⟩ pal
          ⟨cc.r, cc.g, cc.b, p.a⟩)) ∧
    (vectoriCloneImageFlow image pal).greyscaleSource = image ∧
    (vectoriCloneImageFlow image pal).separationSource = image := by
  refine ⟨?_, rfl, rfl⟩
  intro j
  constructor
  · show getRGBA (scanRGB _ image.data) j = _
    rw [getRGBA_scanRGB]
  · show getRGBA (scanRGB _ image.data) j = _
    rw [getRGBA_scanRGB]

/-- A JS number as it occurs in `mergeSvgs`'s bound accumulation: finite
(modelled as a rational, exact for the parsed attribute values), `Infinity`,
`-Infinity`, or `NaN`. -/
inductive JNum where
  | nan
  | negInf
  | fin (q : Rat)
  | posInf
deriving DecidableEq, Repr

namespace JNum

/-- JS `Math.min` on two numbers (`NaN` absorbs). -/
def jmin : JNum → JNum → JNum
  | nan, _ => nan
  | _, nan => nan
  | negInf, _ => negInf
  | _, negInf => negInf
  | posInf, b => b
  | a, posInf => a
  | fin a, fin b => fin (min a b)

/-- JS `Math.max` on two numbers (`NaN` absorbs). -/
def jmax : JNum → JNum → JNum
  | nan, _ => nan
  | _, nan => nan
  | posInf, _ => posInf
  | _, posInf => posInf
  | negInf, b => b
  | a, negInf => a
  | fin a, fin b => fin (max a b)

/-- JS subtraction (`Infinity - Infinity = NaN`, `-Infinity - Infinity =
-Infinity`, …). -/
def jsub : JNum → JNum → JNum
  | nan, _ => nan
  | _, nan => nan
  | posInf, posInf => nan
  | posInf, _ => posInf
  | negInf, negInf => nan
  | negInf, _ => negInf
  | fin _, posInf => negInf
  | fin _, negInf => posInf
  | fin a, fin b => fin (a - b)

/-- JS `<=` (false whenever either side is `NaN`). -/
def jle : JNum → JNum → Bool
  | nan, _ => false
  | _, nan => false
  | negInf, _ => true
  | _, negInf => false
  | _, posInf => true
  | posInf, _ => false
  | fin a, fin b => decide (a ≤ b)

theorem jle_refl : ∀ a : JNum, a ≠ nan → jle a a = true := by
  intro a ha
  cases a with
  | nan => exact absurd rfl ha
  | negInf => rfl
  | posInf => rfl
  | fin q => simp [jle]

theorem jle_trans : ∀ a b c : JNum, jle a b = true → jle b c = true → jle a c = true := by
  intro a b c hab hbc
  cases a <;> cases b <;> cases c <;> simp_all [jle]
  exact le_trans hab hbc

theorem jle_jmin_left : ∀ a : JNum, a ≠ nan → ∀ b : JNum, b ≠ nan → jle (jmin a b) a = true := by
  intro a ha b hb
  cases a <;> cases b <;> simp_all [jle, jmin]

theorem jle_jmin_right : ∀ a : JNum, a ≠ nan → ∀ b : JNum, b ≠ nan → jle (jmin a b) b = true := by
  intro a ha b hb
  cases a <;> cases b <;> simp_all [jle, jmin]

theorem jle_jmax_left : ∀ a : JNum, a ≠ nan → ∀ b : JNum, b ≠ nan → jle a (jmax a b) = true := by
  intro a ha b hb
  cases a <;> cases b <;> simp_all [jle, jmax]

theorem jle_jmax_right : ∀ a : JNum, a ≠ nan → ∀ b : JNum, b ≠ nan → jle b (jmax a b) = true := by
  intro a ha b hb
  cases a <;> cases b <;> simp_all [jle, jmax]

theorem jmin_ne_nan : ∀ a b : JNum, a ≠ nan → b ≠ nan → jmin a b ≠ nan := by
  intro a b ha hb
  cases a <;> cases b <;> simp_all [jmin]

theorem jmax_ne_nan : ∀ a b : JNum, a ≠ nan → b ≠ nan → jmax a b ≠ nan := by
  intro a b ha hb
  cases a <;> cases b <;> simp_all [jmax]

end JNum

/-- One input SVG string of `mergeSvgs`, after the three attribute regexes and
the content regex have run: `viewBox` holds the four floats `x y width height`
parsed from a `viewBox="…"` match (if any), `widthAttr`/`heightAttr` the
parsed `width="…"`/`height="…"` floats, and `content` the inner text of the
`<svg …>…</svg>` match (empty when that regex does not match). -/
structure SvgFragment where
  viewBox : Option (Rat × Rat × Rat × Rat)
  widthAttr : Option Rat
  heightAttr : Option Rat
  content : String
deriving DecidableEq, Repr

/-- The per-fragment frame selection of `mergeSvgs` (src/unnamed/part_000
lines 260–276): prefer the `viewBox` frame; otherwise declared
`width`/`height` at origin `(0, 0)`; otherwise the zero-sized frame. -/
def fragFrame (f : SvgFragment) : Rat × Rat × Rat × Rat :=
  match f.viewBox with
  | some vb => vb
  | none =>
      match f.widthAttr, f.heightAttr with
      | some w, some h => (0, 0, w, h)
      | _, _ => (0, 0, 0, 0)

/-- The merged document of `mergeSvgs`: the accumulated bounds, the final
width/height (`maxX - minX`, `maxY - minY`) from the header, and the
newline-joined inner content. -/
structure MergedSvg where
  minX : JNum
  minY : JNum
  maxX : JNum
  maxY : JNum
  width : JNum
  height : JNum
  content : String
deriving DecidableEq, Repr

/-- One accumulation step of `mergeSvgs` over a fragment (the four
`Math.min`/`Math.max` updates of lines 278–281, with `contentMinX + contentWidth`
and `contentMinY + contentHeight` as the max candidates). -/
def mergeStep (acc : JNum × JNum × JNum × JNum) (f : SvgFragment) :
    JNum × JNum × JNum × JNum :=
  (JNum.jmin acc.1 (.fin (fragFrame f).1),
    JNum.jmin acc.2.1 (.fin (fragFrame f).2.1),
    JNum.jmax acc.2.2.1 (.fin ((fragFrame f).1 + (fragFrame f).2.2.1)),
    JNum.jmax acc.2.2.2 (.fin ((fragFrame f).2.1 + (fragFrame f).2.2.2)))

/-- `mergeSvgs` (src/unnamed/part_000 lines 248–293): starting from
`minX = minY = Infinity`, `maxX = maxY = -Infinity`, fold every fragment's
frame into the bounds, then emit a document whose declared viewport is
`viewBox="minX minY (maxX-minX) (maxY-minY)"` with matching `width`/`height`
attributes and whose content is the fragments' inner contents joined by
newlines. -/
def mergeSvgs (svgs : List SvgFragment) : MergedSvg :=
  let bounds := svgs.foldl mergeStep (JNum.posInf, JNum.posInf, JNum.negInf, JNum.negInf)
  { minX := bounds.1
    minY := bounds.2.1
    maxX := bounds.2.2.1
    maxY := bounds.2.2.2
    width := JNum.jsub bounds.2.2.1 bounds.1
    height := JNum.jsub bounds.2.2.2 bounds.2.1
    content := String.intercalate "\n" (svgs.map SvgFragment.content) }

/-- C1: evaluating `mergeSvgs` on the empty fragment list.  The code has no
empty-input special case: the bounds stay at their `±Infinity` seeds and the
declared width and height are `-Infinity - Infinity = -Infinity`, so the
emitted header is `viewBox="Infinity Infinity -Infinity -Infinity"
width="-Infinity" height="-Infinity"` — not the zero-sized `{0, 0, 0, 0}`
frame the specification requires (the content is empty, as claimed). -/
theorem mergeSvgs_empty_eval :
    mergeSvgs [] =
      { minX := .posInf, minY := .posInf, maxX := .negInf, maxY := .negInf,
        width := .negInf, height := .negInf, content := "" } := by
  rfl

/-- None of the four accumulated bounds is `NaN`. -/
def accNoNan (acc : JNum × JNum × JNum × JNum) : Prop :=
  acc.1 ≠ .nan ∧ acc.2.1 ≠ .nan ∧ acc.2.2.1 ≠ .nan ∧ acc.2.2.2 ≠ .nan

theorem mergeStep_noNan (acc : JNum × JNum × JNum × JNum) (f : SvgFragment)
    (h : accNoNan acc) : accNoNan (mergeStep acc f) :=
  ⟨JNum.jmin_ne_nan _ _ h.1 (by simp),
    JNum.jmin_ne_nan _ _ h.2.1 (by simp),
    JNum.jmax_ne_nan _ _ h.2.2.1 (by simp),
    JNum.jmax_ne_nan _ _ h.2.2.2 (by simp)⟩

/-- Folding fragments into the bounds only tightens them: the final mins are
at most the accumulator's mins and the final maxes at least its maxes (and no
`NaN` ever appears). -/
theorem mergeFold_tightens : ∀ (F : List SvgFragment) (acc : JNum × JNum × JNum × JNum),
    accNoNan acc →
    accNoNan (F.foldl mergeStep acc) ∧
    JNum.jle (F.foldl mergeStep acc).1 acc.1 = true ∧
    JNum.jle (F.foldl mergeStep acc).2.1 acc.2.1 = true ∧
    JNum.jle acc.2.2.1 (F.foldl mergeStep acc).2.2.1 = true ∧
    JNum.jle acc.2.2.2 (F.foldl mergeStep acc).2.2.2 = true := by
  intro F
  induction F with
  | nil =>
      intro acc h
      exact ⟨h, JNum.jle_refl _ h.1, JNum.jle_refl _ h.2.1,
        JNum.jle_refl _ h.2.2.1, JNum.jle_refl _ h.2.2.2⟩
  | cons f F ih =>
      intro acc h
      rw [List.foldl_cons]
      obtain ⟨hn, h1, h2, h3, h4⟩ := ih (mergeStep acc f) (mergeStep_noNan acc f h)
      refine ⟨hn, ?_, ?_, ?_, ?_⟩
      · exact JNum.jle_trans _ _ _ h1 (JNum.jle_jmin_left _ h.1 _ (by simp))
      · exact JNum.jle_trans _ _ _ h2 (JNum.jle_jmin_left _ h.2.1 _ (by simp))
      · exact JNum.jle_trans _ _ _ (JNum.jle_jmax_left _ h.2.2.1 _ (by simp)) h3
      · exact JNum.jle_trans _ _ _ (JNum.jle_jmax_left _ h.2.2.2 _ (by simp)) h4

/-- Every fragment folded in is contained in the final bounds. -/
theorem mergeFold_contains : ∀ (F : List SvgFragment) (acc : JNum × JNum × JNum × JNum),
    accNoNan acc → ∀ f ∈ F,
    JNum.jle (F.foldl mergeStep acc).1 (.fin (fragFrame f).1) = true ∧
    JNum.jle (F.foldl mergeStep acc).2.1 (.fin (fragFrame f).2.1) = true ∧
    JNum.jle (.fin ((fragFrame f).1 + (fragFrame f).2.2.1))
      (F.foldl mergeStep acc).2.2.1 = true ∧
    JNum.jle (.fin ((fragFrame f).2.1 + (fragFrame f).2.2.2))
      (F.foldl mergeStep acc).2.2.2 = true := by
  intro F
  induction F with
  | nil => intro acc _ f hf; cases hf
  | cons f0 F ih =>
      intro acc h f hf
      rw [List.foldl_cons]
      have hn0 := mergeStep_noNan acc f0 h
      rcases List.mem_cons.mp hf with rfl | hf
      · obtain ⟨_, h1, h2, h3, h4⟩ := mergeFold_tightens F (mergeStep acc f) hn0
        refine ⟨?_, ?_, ?_, ?_⟩
        · exact JNum.jle_trans _ _ _ h1 (JNum.jle_jmin_right _ h.1 _ (by simp))
        · exact JNum.jle_trans _ _ _ h2 (JNum.jle_jmin_right _ h.2.1 _ (by simp))
        · exact JNum.jle_trans _ _ _ (JNum.jle_jmax_right _ h.2.2.1 _ (by simp)) h3
        · exact JNum.jle_trans _ _ _ (JNum.jle_jmax_right _ h.2.2.2 _ (by simp)) h4
      · exact ih (mergeStep acc f0) hn0 f hf

/-- C6: the merged document's frame contains every input fragment's frame
(its min corner is at or below each fragment's origin and its max corner at or
above each fragment's `origin + size`, with frames chosen by the declared
`viewBox` / `width`+`height` / zero-size fallback of `fragFrame`); and merging
two fragments with viewBoxes `"0 0 10 10"` and `"5 5 20 20"` yields exactly the
frame `{minX 0, minY 0, width 25, height 25}`. -/
theorem mergeSvgs_contains_frames :
    (∀ (F : List SvgFragment), ∀ f ∈ F,
      JNum.jle (mergeSvgs F).minX (.fin (fragFrame f).1) = true ∧
      JNum.jle (mergeSvgs F).minY (.fin (fragFrame f).2.1) = true ∧
      JNum.jle (.fin ((fragFrame f).1 + (fragFrame f).2.2.1)) (mergeSvgs F).maxX = true ∧
      JNum.jle (.fin ((fragFrame f).2.1 + (fragFrame f).2.2.2)) (mergeSvgs F).maxY = true) ∧
    mergeSvgs [⟨some (0, 0, 10, 10), none, none, "A"⟩, ⟨some (5, 5, 20, 20), none, none, "B"⟩] =
      { minX := .fin 0, minY := .fin 0, maxX := .fin 25, maxY := .fin 25,
        width := .fin 25, height := .fin 25, content := "A\nB" } := by
  constructor
  · intro F f hf
    exact mergeFold_contains F (JNum.posInf, JNum.posInf, JNum.negInf, JNum.negInf)
      ⟨by simp, by simp, by simp, by simp⟩ f hf
  · simp only [mergeSvgs, List.foldl_cons, List.foldl_nil, mergeStep, fragFrame,
      List.map_cons, List.map_nil]
    norm_num [JNum.jmin, JNum.jmax, JNum.jsub]
    rfl

/-- Witness for `mergeSvgs_contains_frames` on the two-fragment scenario:
the merged frame contains the second fragment's frame `5 5 20 20`. -/
theorem mergeSvgs_contains_frames_witness :
    (⟨some (5, 5, 20, 20), none, none, "B"⟩ : SvgFragment) ∈
      [(⟨some (0, 0, 10, 10), none, none, "A"⟩ : SvgFragment),
        ⟨some (5, 5, 20, 20), none, none, "B"⟩] ∧
    JNum.jle (mergeSvgs [⟨some (0, 0, 10, 10), none, none, "A"⟩,
        ⟨some (5, 5, 20, 20), none, none, "B"⟩]).minX
      (.fin (fragFrame ⟨some (5, 5, 20, 20), none, none, "B"⟩).1) = true :=
  ⟨List.mem_cons_of_mem _ (List.mem_cons_self _ _),
    (mergeSvgs_contains_frames.1 _ _
      (List.mem_cons_of_mem _ (List.mem_cons_self _ _))).1⟩

/-- Scan to the first `"` character, returning the remainder after it, or
`none` when there is no quote: the `[^"]*"` part of the source's attribute
regexes, which consumes everything up to and including the next quote. -/
def findQuote : List Char → Option (List Char)
  | [] => none
  | c :: rest => if c = '"' then some rest else findQuote rest

/-- Fuel-indexed body of `replaceAttr`; the fuel (initially the text length,
which bounds the number of scan steps) only makes the recursion structural and
never runs out. -/
def replaceAttrGo (pat repl : List Char) : Nat → List Char → List Char
  | _, [] => []
  | 0, l => l
  | Nat.succ fuel, c :: rest =>
      if pat.isPrefixOf (c :: rest) then
        match findQuote (List.drop pat.length (c :: rest)) with
        | some after => repl ++ replaceAttrGo pat repl fuel after
        | none => c :: replaceAttrGo pat repl fuel rest
      else c :: replaceAttrGo pat repl fuel rest

/-- JS `String.prototype.replace` with a global regex of the shape
`pat[^"]*"` (e.g. `/fill="[^"]*"/g`): scan left to right; at a position where
`pat` matches and a closing quote follows, emit `repl` and continue after the
consumed match; otherwise copy one character and move on (a `pat` occurrence
with no later quote never matches, as the regex requires the closing quote). -/
def replaceAttr (pat repl l : List Char) : List Char :=
  replaceAttrGo pat repl l.length l

/-- Whether the regex `pat[^"]*"` matches anywhere in the text (same scan as
`replaceAttr`). -/
def hasMatch (pat : List Char) : List Char → Bool
  | [] => false
  | c :: rest =>
      if pat.isPrefixOf (c :: rest) then
        match findQuote (List.drop pat.length (c :: rest)) with
        | some _ => true
        | none => hasMatch pat rest
      else hasMatch pat rest

theorem findQuote_length : ∀ (l r : List Char), findQuote l = some r → r.length < l.length := by
  intro l
  induction l with
  | nil => intro r h; cases h
  | cons c rest ih =>
      intro r h
      rw [findQuote] at h
      by_cases hc : c = '"'
      · rw [if_pos hc] at h
        cases h
        simp
      · rw [if_neg hc] at h
        exact Nat.lt_trans (ih r h) (by simp)

theorem replaceAttrGo_nil (pat repl : List Char) :
    ∀ k : Nat, replaceAttrGo pat repl k [] = [] := by
  intro k
  cases k <;> rfl

theorem replaceAttrGo_fuel (pat repl : List Char) :
    ∀ (n : Nat) (l : List Char) (m : Nat), l.length ≤ n → l.length ≤ m →
      replaceAttrGo pat repl n l = replaceAttrGo pat repl m l := by
  intro n
  induction n with
  | zero =>
      intro l m hn _
      have : l = [] := List.eq_nil_of_length_eq_zero (Nat.le_zero.mp hn)
      subst this
      rw [replaceAttrGo_nil, replaceAttrGo_nil]
  | succ n ih =>
      intro l m hn hm
      cases l with
      | nil => rw [replaceAttrGo_nil, replaceAttrGo_nil]
      | cons c rest =>
          cases m with
          | zero => exact absurd hm (by simp)
          | succ m =>
              show (if pat.isPrefixOf (c :: rest) then _ else _) =
                (if pat.isPrefixOf (c :: rest) then _ else _)
              by_cases hpre : pat.isPrefixOf (c :: rest)
              · rw [if_pos hpre, if_pos hpre]
                cases hfq : findQuote (List.drop pat.length (c :: rest)) with
                | some after =>
                    have hlen : after.length < (c :: rest).length :=
                      Nat.lt_of_lt_of_le (findQuote_length _ _ hfq) (by simp)
                    show repl ++ replaceAttrGo pat repl n after =
                      repl ++ replaceAttrGo pat repl m after
                    rw [ih after m (Nat.le_of_lt_succ (Nat.lt_of_lt_of_le hlen hn))
                      (Nat.le_of_lt_succ (Nat.lt_of_lt_of_le hlen hm))]
                | none =>
                    show c :: replaceAttrGo pat repl n rest = c :: replaceAttrGo pat repl m rest
                    rw [ih rest m (Nat.le_of_succ_le_succ hn) (Nat.le_of_succ_le_succ hm)]
              · rw [if_neg hpre, if_neg hpre,
                  ih rest m (Nat.le_of_succ_le_succ hn) (Nat.le_of_succ_le_succ hm)]

theorem replaceAttr_nil (pat repl : List Char) : replaceAttr pat repl [] = [] := rfl

theorem replaceAttr_match (pat repl : List Char) :
    ∀ (l after : List Char), l ≠ [] → pat.isPrefixOf l = true →
      findQuote (List.drop pat.length l) = some after →
      replaceAttr pat repl l = repl ++ replaceAttr pat repl after := by
  intro l after hne hpre hfq
  match l with
  | [] => exact absurd rfl hne
  | c :: rest =>
      show replaceAttrGo pat repl (rest.length + 1) (c :: rest) = _
      rw [replaceAttrGo, if_pos hpre, hfq]
      have hlen : after.length ≤ rest.length := by
        have := findQuote_length _ _ hfq
        have h2 : (List.drop pat.length (c :: rest)).length ≤ rest.length + 1 := by
          simp
        omega
      show repl ++ replaceAttrGo pat repl rest.length after =
        repl ++ replaceAttrGo pat repl after.length after
      rw [replaceAttrGo_fuel pat repl rest.length after after.length hlen (le_refl _)]

theorem replaceAttr_noquote (pat repl : List Char) (c : Char) (rest : List Char)
    (hpre : pat.isPrefixOf (c :: rest) = true)
    (hfq : findQuote (List.drop pat.length (c :: rest)) = none) :
    replaceAttr pat repl (c :: rest) = c :: replaceAttr pat repl rest := by
  show replaceAttrGo pat repl (rest.length + 1) (c :: rest) = _
  rw [replaceAttrGo, if_pos hpre, hfq]
  rfl

theorem replaceAttr_nopre (pat repl : List Char) (c : Char) (rest : List Char)
    (hpre : ¬ pat.isPrefixOf (c :: rest) = true) :
    replaceAttr pat repl (c :: rest) = c :: replaceAttr pat repl rest := by
  show replaceAttrGo pat repl (rest.length + 1) (c :: rest) = _
  rw [replaceAttrGo, if_neg hpre]
  rfl

theorem findQuote_append_quote :
    ∀ (body z : List Char), '"' ∉ body → findQuote (body ++ '"' :: z) = some z := by
  intro body
  induction body with
  | nil =>
      intro z _
      show findQuote ('"' :: z) = some z
      rw [findQuote, if_pos rfl]
  | cons b bs ih =>
      intro z hb
      have hbq : ¬ b = '"' := fun h => hb (h ▸ List.mem_cons_self _ _)
      show findQuote (b :: (bs ++ '"' :: z)) = some z
      rw [findQuote, if_neg hbq]
      exact ih z (fun h => hb (List.mem_cons_of_mem _ h))

theorem findQuote_eq_none : ∀ l : List Char, '"' ∉ l → findQuote l = none := by
  intro l
  induction l with
  | nil => intro _; rfl
  | cons c rest ih =>
      intro h
      rw [findQuote, if_neg (fun hc => h (List.mem_cons.mpr (Or.inl hc.symm)))]
      exact ih (fun hc => h (List.mem_cons_of_mem _ hc))

theorem not_quote_of_findQuote_none : ∀ l : List Char, findQuote l = none → '"' ∉ l := by
  intro l
  induction l with
  | nil => intro _ h; cases h
  | cons c rest ih =>
      intro h hmem
      rw [findQuote] at h
      by_cases hc : c = '"'
      · rw [if_pos hc] at h; cases h
      · rw [if_neg hc] at h
        rcases List.mem_cons.mp hmem with hq | hq
        · exact hc hq.symm
        · exact ih h hq

theorem mem_drop_of_le {α : Type} {x : α} {l : List α} {d e : Nat} (hde : d ≤ e)
    (hx : x ∈ l.drop e) : x ∈ l.drop d := by
  have hdrop : (l.drop d).drop (e - d) = l.drop e := by
    rw [List.drop_drop]
    congr 1
    omega
  rw [← hdrop] at hx
  exact List.mem_of_mem_drop hx

/-- A text with no quote at or beyond position `pat.length` has no match, and
the scan copies it verbatim. -/
theorem replaceAttr_no_quote (pat repl : List Char) :
    ∀ (l : List Char) (d : Nat), d ≤ pat.length → (∀ x ∈ l.drop d, x ≠ '"') →
      replaceAttr pat repl l = l := by
  intro l
  induction l with
  | nil => intro d _ _; rfl
  | cons c rest ih =>
      intro d hd hq
      have hnone : findQuote (List.drop pat.length (c :: rest)) = none :=
        findQuote_eq_none _ (fun hmem => hq '"' (mem_drop_of_le hd hmem) rfl)
      have hrest : ∀ x ∈ rest.drop d, x ≠ '"' := by
        intro x hx
        cases d with
        | zero => exact hq x (List.mem_cons_of_mem _ hx)
        | succ e =>
            have hx2 : x ∈ rest.drop e := mem_drop_of_le (Nat.le_succ e) hx
            exact hq x (show x ∈ List.drop (e + 1) (c :: rest) from hx2)
      by_cases hpre : pat.isPrefixOf (c :: rest)
      · rw [replaceAttr_noquote pat repl c rest hpre hnone, ih d hd hrest]
      · rw [replaceAttr_nopre pat repl c rest hpre, ih d hd hrest]

/-- A matchless text is copied verbatim. -/
theorem replaceAttr_of_not_hasMatch (pat repl : List Char) :
    ∀ l : List Char, hasMatch pat l = false → replaceAttr pat repl l = l := by
  intro l
  induction l with
  | nil => intro _; rfl
  | cons c rest ih =>
      intro h
      rw [hasMatch] at h
      by_cases hpre : pat.isPrefixOf (c :: rest)
      · rw [if_pos hpre] at h
        cases hfq : findQuote (List.drop pat.length (c :: rest)) with
        | some after => rw [hfq] at h; cases h
        | none =>
            rw [hfq] at h
            rw [replaceAttr_noquote pat repl c rest hpre hfq, ih h]
      · rw [if_neg hpre] at h
        rw [replaceAttr_nopre pat repl c rest hpre, ih h]

/-- The scan cannot manufacture a new short prefix: when the replacement text
extends the pattern (`repl = pat ++ body ++ '"'`), any prefix of the rewritten
text strictly shorter than the pattern was already a prefix of the original
text. -/
theorem isPrefixOf_replaceAttr (pat body : List Char) (_hbody : '"' ∉ body) :
    ∀ (n : Nat) (l q : List Char), l.length ≤ n → q.length < pat.length →
      q.isPrefixOf (replaceAttr pat (pat ++ body ++ ['"']) l) = true →
      q.isPrefixOf l = true := by
  intro n
  induction n with
  | zero =>
      intro l q hn _ hpre
      have : l = [] := List.eq_nil_of_length_eq_zero (Nat.le_zero.mp hn)
      subst this
      rwa [replaceAttr_nil] at hpre
  | succ n ih =>
      intro l q hn hq hpre
      cases l with
      | nil => rwa [replaceAttr_nil] at hpre
      | cons c rest =>
          by_cases hp : pat.isPrefixOf (c :: rest)
          · cases hfq : findQuote (List.drop pat.length (c :: rest)) with
            | some after =>
                rw [replaceAttr_match pat _ (c :: rest) after (by simp) hp hfq] at hpre
                have hq1 := List.isPrefixOf_iff_prefix.mp hpre
                have hq2 := List.prefix_iff_eq_take.mp hq1
                have hlen1 : q.length ≤ (pat ++ body).length := by
                  simp
                  omega
                rw [List.take_append_of_le_length (by simp; omega),
                  List.take_append_of_le_length hlen1,
                  List.take_append_of_le_length (le_of_lt hq)] at hq2
                have hqpat : q <+: pat := hq2 ▸ List.take_prefix q.length pat
                exact List.isPrefixOf_iff_prefix.mpr
                  (hqpat.trans (List.isPrefixOf_iff_prefix.mp hp))
            | none =>
                have hfix : replaceAttr pat (pat ++ body ++ ['"']) (c :: rest) = c :: rest :=
                  replaceAttr_no_quote pat _ (c :: rest) pat.length (le_refl _)
                    (fun x hx hxq => not_quote_of_findQuote_none _ hfq (hxq ▸ hx))
                rwa [hfix] at hpre
          · rw [replaceAttr_nopre pat _ c rest hp] at hpre
            cases q with
            | nil => simp [List.isPrefixOf]
            | cons qc qtail =>
                have h1 := List.isPrefixOf_iff_prefix.mp hpre
                obtain ⟨hqc, hqt⟩ := List.cons_prefix_cons.mp h1
                have h2 := ih rest qtail (Nat.le_of_succ_le_succ hn)
                  (Nat.lt_of_succ_lt hq) (List.isPrefixOf_iff_prefix.mpr hqt)
                exact List.isPrefixOf_iff_prefix.mpr
                  (List.cons_prefix_cons.mpr ⟨hqc, List.isPrefixOf_iff_prefix.mp h2⟩)

/-- Rescanning a replacement consumes exactly the replacement: the pattern
matches at its head and the first quote after the pattern is the replacement's
final character. -/
theorem replaceAttr_append_repl (pat body : List Char) (hbody : '"' ∉ body) (z : List Char) :
    replaceAttr pat (pat ++ body ++ ['"']) ((pat ++ body ++ ['"']) ++ z) =
      (pat ++ body ++ ['"']) ++ replaceAttr pat (pat ++ body ++ ['"']) z := by
  have hpre : pat.isPrefixOf ((pat ++ body ++ ['"']) ++ z) = true := by
    apply List.isPrefixOf_iff_prefix.mpr
    have h1 : pat <+: pat ++ ((body ++ ['"']) ++ z) := List.prefix_append _ _
    simpa [List.append_assoc] using h1
  have hfq : findQuote (List.drop pat.length ((pat ++ body ++ ['"']) ++ z)) = some z := by
    have hshape : (pat ++ body ++ ['"']) ++ z = pat ++ (body ++ '"' :: z) := by
      simp [List.append_assoc]
    rw [hshape, List.drop_left]
    exact findQuote_append_quote body z hbody
  rw [replaceAttr_match pat _ _ z (by simp) hpre hfq]

/-- Idempotence of the scan when the replacement is the pattern, a quote-free
body, and a closing quote (the shape of the `fill="none"` rewrite). -/
theorem replaceAttr_idem_aux (pat body : List Char) (hbody : '"' ∉ body) :
    ∀ (n : Nat) (l : List Char), l.length ≤ n →
      replaceAttr pat (pat ++ body ++ ['"'])
          (replaceAttr pat (pat ++ body ++ ['"']) l) =
        replaceAttr pat (pat ++ body ++ ['"']) l := by
  intro n
  induction n with
  | zero =>
      intro l hn
      have : l = [] := List.eq_nil_of_length_eq_zero (Nat.le_zero.mp hn)
      subst this
      rfl
  | succ n ih =>
      intro l hn
      cases l with
      | nil => rfl
      | cons c rest =>
          by_cases hp : pat.isPrefixOf (c :: rest)
          · cases hfq : findQuote (List.drop pat.length (c :: rest)) with
            | some after =>
                have hlen : after.length ≤ n := by
                  have h1 := findQuote_length _ _ hfq
                  have h2 : (List.drop pat.length (c :: rest)).length ≤ rest.length + 1 := by
                    simp
                  have h3 : rest.length + 1 ≤ n + 1 := hn
                  omega
                rw [replaceAttr_match pat _ (c :: rest) after (by simp) hp hfq,
                  replaceAttr_append_repl pat body hbody, ih after hlen]
            | none =>
                have hfix : replaceAttr pat (pat ++ body ++ ['"']) (c :: rest) = c :: rest :=
                  replaceAttr_no_quote pat _ (c :: rest) pat.length (le_refl _)
                    (fun x hx hxq => not_quote_of_findQuote_none _ hfq (hxq ▸ hx))
                rw [hfix, hfix]
          · rw [replaceAttr_nopre pat _ c rest hp]
            by_cases hp2 :
              pat.isPrefixOf (c :: replaceAttr pat (pat ++ body ++ ['"']) rest)
            · exfalso
              have hpatne : pat ≠ [] := by
                intro hnil
                rw [hnil] at hp
                exact hp rfl
              obtain ⟨pc, ptail, rfl⟩ : ∃ pc ptail, pat = pc :: ptail := by
                cases pat with
                | nil => exact absurd rfl hpatne
                | cons pc ptail => exact ⟨pc, ptail, rfl⟩
              have h1 := List.isPrefixOf_iff_prefix.mp hp2
              obtain ⟨hpc, hpt⟩ := List.cons_prefix_cons.mp h1
              have h2 := isPrefixOf_replaceAttr (pc :: ptail) body hbody n rest ptail
                (Nat.le_of_succ_le_succ hn) (by simp)
                (List.isPrefixOf_iff_prefix.mpr hpt)
              exact hp (List.isPrefixOf_iff_prefix.mpr
                (List.cons_prefix_cons.mpr ⟨hpc, List.isPrefixOf_iff_prefix.mp h2⟩))
            · rw [replaceAttr_nopre pat _ c _ hp2, ih rest (Nat.le_of_succ_le_succ hn)]

/-- The pattern of the regex `/fill="[^"]*"/g`. -/
def fillPat : List Char := String.toList "fill=\""

/-- Its replacement text `fill="none"`. -/
def fillNone : List Char := String.toList "fill=\"none\""

/-- The pattern of the regex `/stroke="[^"]*"/g`. -/
def strokePat : List Char := String.toList "stroke=\""

/-- Its replacement text `stroke="black" stroke-width="1"`. -/
def strokeBlack : List Char := String.toList "stroke=\"black\" stroke-width=\"1\""

/-- The per-fragment rewrite of `createSvgOutline` (src/unnamed/part_000 lines
368–374): `svg.replace(/fill="[^"]*"/g, 'fill="none"')
.replace(/stroke="[^"]*"/g, 'stroke="black" stroke-width="1"')`. -/
def outlineSvg (svg : String) : String :=
  ⟨replaceAttr strokePat strokeBlack (replaceAttr fillPat fillNone svg.data)⟩

/-- `createSvgOutline` maps the rewrite over the traced fragments. -/
def createSvgOutline (svgs : List String) : List String :=
  svgs.map outlineSvg

/-- C2 counterexample: on a fragment carrying a stroke declaration (potrace
output carries `stroke="none"`), the outline transformer is not idempotent —
the second application re-matches the `stroke="black"` it produced and appends
a duplicate `stroke-width="1"` attribute. -/
theorem outline_not_idempotent :
    outlineSvg (outlineSvg "<path d=\"M0 0\" stroke=\"none\" fill=\"red\"/>") ≠
      outlineSvg "<path d=\"M0 0\" stroke=\"none\" fill=\"red\"/>" ∧
    outlineSvg "<path d=\"M0 0\" stroke=\"none\" fill=\"red\"/>" =
      "<path d=\"M0 0\" stroke=\"black\" stroke-width=\"1\" fill=\"none\"/>" ∧
    outlineSvg (outlineSvg "<path d=\"M0 0\" stroke=\"none\" fill=\"red\"/>") =
      "<path d=\"M0 0\" stroke=\"black\" stroke-width=\"1\" stroke-width=\"1\" fill=\"none\"/>" := by
  refine ⟨?_, ?_, ?_⟩ <;> decide

/-- C2 (amended): the fill rewrite alone is idempotent, so the outline
transformer is idempotent exactly on fragments in which no stroke declaration
survives the fill rewrite — in particular on fragments with no stroke
declaration at all.  (With a stroke declaration present, a second application
appends a duplicate `stroke-width="1"`, see the counterexample.) -/
theorem outline_idem_of_no_stroke (svg : String)
    (h : hasMatch strokePat (replaceAttr fillPat fillNone svg.data) = false) :
    outlineSvg (outlineSvg svg) = outlineSvg svg := by
  have hfill : ∀ l : List Char,
      replaceAttr fillPat fillNone (replaceAttr fillPat fillNone l) =
        replaceAttr fillPat fillNone l := by
    intro l
    have hshape : fillNone = fillPat ++ String.toList "none" ++ ['"'] := by decide
    have hb : '"' ∉ String.toList "none" := by decide
    have hidem := replaceAttr_idem_aux fillPat (String.toList "none") hb l.length l (le_refl _)
    rwa [← hshape] at hidem
  have hstroke := replaceAttr_of_not_hasMatch strokePat strokeBlack _ h
  show (⟨replaceAttr strokePat strokeBlack (replaceAttr fillPat fillNone
      (replaceAttr strokePat strokeBlack (replaceAttr fillPat fillNone svg.data)))⟩ : String) =
    ⟨replaceAttr strokePat strokeBlack (replaceAttr fillPat fillNone svg.data)⟩
  rw [hstroke, hfill, hstroke]

/-- Witness for `outline_idem_of_no_stroke` on a stroke-free fragment. -/
theorem outline_idem_of_no_stroke_witness :
    hasMatch strokePat (replaceAttr fillPat fillNone
      (String.data "<path fill=\"red\"/>")) = false ∧
    outlineSvg (outlineSvg "<path fill=\"red\"/>") = outlineSvg "<path fill=\"red\"/>" :=
  ⟨by decide, outline_idem_of_no_stroke "<path fill=\"red\"/>" (by decide)⟩

/-- The indexed fan-out of `traceImagesToSvgs`: one tracer call per image, the
call at index `i` receiving `colorPallet[i]` (`none` models JS `undefined`
past the palette's end); the fan-in places results by index and fails as a
whole on any per-call failure. -/
def traceFrom {ε : Type} (tr : String → Option String → Except ε String)
    (colorPallet : List String) : List String → Nat → Except ε (List String)
  | [], _ => .ok []
  | img :: rest, i =>
      match tr img (colorPallet.get? i) with
      | .error e => .error e
      | .ok svg =>
          match traceFrom tr colorPallet rest (i + 1) with
          | .error e => .error e
          | .ok svgs => .ok (svg :: svgs)

/-- `traceImagesToSvgs` (src/unnamed/part_000 lines 225–240):
`Promise.all(separatedColorImages.map((img, i) => trace(img, {color:
colorPallet[i]}, …)))`.  `Promise.all` places each fulfilled value at its
call's index regardless of settlement order, and rejects the whole batch as
soon as any call rejects; `tr` is the external potrace collaborator (the
surfaced error value is one of the failing calls' errors — which one depends
on timing, so only the batch's failure is specified). -/
def traceImagesToSvgs {ε : Type} (tr : String → Option String → Except ε String)
    (separatedColorImages : List String) (colorPallet : List String) :
    Except ε (List String) :=
  traceFrom tr colorPallet separatedColorImages 0

theorem traceFrom_ok {ε : Type} (tr : String → Option String → Except ε String)
    (pallet : List String) :
    ∀ (images : List String) (k : Nat) (out : List String),
      traceFrom tr pallet images k = .ok out →
      out.length = images.length ∧
      ∀ i img, images.get? i = some img →
        ∃ svg, out.get? i = some svg ∧ tr img (pallet.get? (k + i)) = .ok svg := by
  intro images
  induction images with
  | nil =>
      intro k out h
      rw [traceFrom] at h
      cases h
      exact ⟨rfl, by intro i img h; cases h⟩
  | cons img0 rest ih =>
      intro k out h
      rw [traceFrom] at h
      cases htr : tr img0 (pallet.get? k) with
      | error e => rw [htr] at h; cases h
      | ok svg =>
          rw [htr] at h
          cases hrest : traceFrom tr pallet rest (k + 1) with
          | error e => rw [hrest] at h; cases h
          | ok svgs =>
              rw [hrest] at h
              cases h
              obtain ⟨hlen, hidx⟩ := ih (k + 1) svgs hrest
              refine ⟨by simp [hlen], ?_⟩
              intro i img hi
              cases i with
              | zero =>
                  cases hi
                  exact ⟨svg, rfl, by simpa using htr⟩
              | succ i =>
                  obtain ⟨svg2, h1, h2⟩ := hidx i img hi
                  refine ⟨svg2, h1, ?_⟩
                  have harith : k + 1 + i = k + (i + 1) := by omega
                  rwa [harith] at h2

theorem traceFrom_error {ε : Type} (tr : String → Option String → Except ε String)
    (pallet : List String) :
    ∀ (images : List String) (k i : Nat) (img : String) (e : ε),
      images.get? i = some img → tr img (pallet.get? (k + i)) = .error e →
      ∃ e2, traceFrom tr pallet images k = .error e2 := by
  intro images
  induction images with
  | nil => intro k i img e hi _; cases hi
  | cons img0 rest ih =>
      intro k i img e hi htr
      cases i with
      | zero =>
          cases hi
          refine ⟨e, ?_⟩
          rw [traceFrom]
          rw [show pallet.get? k = pallet.get? (k + 0) from by simp, htr]
      | succ i =>
          cases htr0 : tr img0 (pallet.get? k) with
          | error e0 => exact ⟨e0, by rw [traceFrom, htr0]⟩
          | ok svg0 =>
              have harith : k + (i + 1) = (k + 1) + i := by omega
              rw [harith] at htr
              obtain ⟨e2, h2⟩ := ih (k + 1) i img e hi htr
              exact ⟨e2, by rw [traceFrom, htr0, h2]⟩

/-- C7: for a fan-out of `N` per-layer trace calls, if the batch succeeds the
fragment sequence has length `N` and the fragment at index `i` is the result of
tracing image `i` with palette color `i` (index alignment, independent of
completion order thanks to `Promise.all`'s by-index placement); if any single
call fails, the whole batch fails and no fragment sequence is produced. -/
theorem traceImagesToSvgs_spec {ε : Type} (tr : String → Option String → Except ε String)
    (images pallet : List String) :
    (∀ out, traceImagesToSvgs tr images pallet = .ok out →
      out.length = images.length ∧
      ∀ i img, images.get? i = some img →
        ∃ svg, out.get? i = some svg ∧ tr img (pallet.get? i) = .ok svg) ∧
    (∀ i img e, images.get? i = some img → tr img (pallet.get? i) = .error e →
      ∃ e2, traceImagesToSvgs tr images pallet = .error e2) := by
  constructor
  · intro out h
    obtain ⟨hlen, hidx⟩ := traceFrom_ok tr pallet images 0 out h
    refine ⟨hlen, ?_⟩
    intro i img hi
    simpa using hidx i img hi
  · intro i img e hi htr
    exact traceFrom_error tr pallet images 0 i img e hi (by simpa using htr)

/-- A demonstration tracer that always succeeds, pairing each image with its
palette entry. -/
def demoTraceOk : String → Option String → Except Nat String :=
  fun img oc => .ok (img ++ oc.getD "")

/-- A demonstration tracer that fails on the image `"bad"`. -/
def demoTraceFail : String → Option String → Except Nat String :=
  fun img oc => if img = "bad" then .error 7 else .ok (img ++ oc.getD "")

/-- Witness for `traceImagesToSvgs_spec`: a successful 2-call batch is
index-aligned, and a batch whose second call fails fails as a whole. -/
theorem traceImagesToSvgs_spec_witness :
    (∃ svg, (["a#1", "b#2"] : List String).get? 1 = some svg ∧
      demoTraceOk "b" ((["#1", "#2"] : List String).get? 1) = .ok svg) ∧
    (∃ e2, traceImagesToSvgs demoTraceFail ["a", "bad"] ["#1", "#2"] = .error e2) := by
  constructor
  · exact ((traceImagesToSvgs_spec demoTraceOk ["a", "b"] ["#1", "#2"]).1
      ["a#1", "b#2"] rfl).2 1 "b" rfl
  · exact (traceImagesToSvgs_spec demoTraceFail ["a", "bad"] ["#1", "#2"]).2 1 "bad" 7
      rfl rfl
